import Mathlib

/-!
# Verification of the `gcal` calendar-listing tool

A shallow embedding of `main.go` (and of the Go `time`-package routines it
calls: `time.Date`, `time.Parse`, `Time.ISOWeek`, `Time.Format`) together
with proofs settling the specification claims about window computation,
date normalization, output formatting, and driver control flow.

Conventions:
* A calendar instant is represented by `GoTime`: the wall-clock fields in
  the time's own location plus the location's offset from UTC in minutes
  (Go's `Time` accessors `Year`/`Month`/.../`Minute` likewise return
  wall-clock fields of the stored location).
* Day numbers count days since January 1 of year 1 (day 0), which is a
  Monday in the proleptic Gregorian calendar — the same anchor Go's
  `absWeekday` documents.
-/

namespace Gcal

/-- Gregorian leap-year test, as in Go's `isLeap`. -/
def isLeap (y : Nat) : Bool :=
  (y % 4 == 0 && y % 100 != 0) || y % 400 == 0

/-- Cumulative day count of a non-leap year before 1-based month `m`
(Go's `daysBefore` array, shifted to 1-based months). -/
def cumDays : Nat → Nat
  | 0 => 0
  | 1 => 0
  | 2 => 31
  | 3 => 59
  | 4 => 90
  | 5 => 120
  | 6 => 151
  | 7 => 181
  | 8 => 212
  | 9 => 243
  | 10 => 273
  | 11 => 304
  | 12 => 334
  | _ => 365

/-- Days before 1-based month `m` for the given leap flag. -/
def daysBeforeM (leap : Bool) (m : Nat) : Nat :=
  cumDays m + (if 2 < m ∧ leap = true then 1 else 0)

/-- Length of 1-based month `m` for the given leap flag (Go's `daysIn`). -/
def daysInM (leap : Bool) (m : Nat) : Nat :=
  if m = 2 then (if leap then 29 else 28) else cumDays (m + 1) - cumDays m

/-- Length of month `m` in year `y`. -/
def daysInMonth (y m : Nat) : Nat := daysInM (isLeap y) m

/-- Days before the given month in the given year (leap day included). -/
def daysBeforeMonth (y m : Nat) : Nat := daysBeforeM (isLeap y) m

/-- Day number of January 1 of year `y` (`y ≥ 1`): number of days of the
complete years 1, …, y−1. -/
def jan1 (y : Nat) : Nat :=
  365 * (y - 1) + (y - 1) / 4 - (y - 1) / 100 + (y - 1) / 400

/-- Day number of a civil date. -/
def daysFromCivil (y m d : Nat) : Nat :=
  jan1 y + daysBeforeMonth y m + (d - 1)

/-! ### Year extraction (Go `absDate`, year part)

Go extracts the year of an absolute day count by peeling 400-year,
100-year, 4-year and 1-year cycles, capping the 100- and 1-year counts at
3 via `n -= n >> 2`.  The 400-year part commutes with everything, so we
name the within-era (day-of-era `r < 146097`) quantities. -/

/-- Number of complete centuries within the era (capped at 3). -/
def eraN100 (r : Nat) : Nat := r / 36524 - r / 36524 / 4

/-- Days remaining after the complete centuries. -/
def eraR2 (r : Nat) : Nat := r - 36524 * eraN100 r

/-- Number of complete 4-year cycles within the century. -/
def eraN4 (r : Nat) : Nat := eraR2 r / 1461

/-- Days remaining after the complete 4-year cycles. -/
def eraR3 (r : Nat) : Nat := eraR2 r - 1461 * eraN4 r

/-- Number of complete years within the 4-year cycle (capped at 3). -/
def eraN1 (r : Nat) : Nat := eraR3 r / 365 - eraR3 r / 365 / 4

/-- 0-based year of era. -/
def eraYoe (r : Nat) : Nat := 100 * eraN100 r + 4 * eraN4 r + eraN1 r

/-- 0-based day of year within the era. -/
def eraYday (r : Nat) : Nat := eraR3 r - 365 * eraN1 r

/-- Days of the era before 0-based year-of-era `q`. -/
def yoeDays (q : Nat) : Nat := 365 * q + q / 4 - q / 100 + q / 400

/-- Year and 0-based day of year of a day number (Go `absDate`, year part). -/
def absYearYday (N : Nat) : Nat × Nat :=
  (400 * (N / 146097) + eraYoe (N % 146097) + 1, eraYday (N % 146097))

/-- The year a day number falls in. -/
def yearOfDays (N : Nat) : Nat := (absYearYday N).1

theorem yoeDays_decomp (a c e : Nat) (ha : a ≤ 3) (hc : c ≤ 24) (he : e ≤ 3) :
    yoeDays (100 * a + 4 * c + e) = 36524 * a + 1461 * c + 365 * e := by
  simp only [yoeDays]
  omega

theorem jan1_era (n q : Nat) : jan1 (400 * n + q + 1) = 146097 * n + yoeDays q := by
  simp only [jan1, yoeDays]
  omega

/-- Within one 400-year era the Go year extraction brackets the day of era
and the leftover is the day of year. -/
theorem withinEra (r : Nat) (hr : r < 146097) :
    yoeDays (eraYoe r) ≤ r ∧ r < yoeDays (eraYoe r + 1) ∧ eraYday r = r - yoeDays (eraYoe r) := by
  have ha : eraN100 r ≤ 3 := by simp only [eraN100]; omega
  have ha2 : eraR2 r ≤ 36524 ∧ r = 36524 * eraN100 r + eraR2 r ∧
      (eraN100 r < 3 → eraR2 r < 36524) := by
    simp only [eraR2, eraN100]
    omega
  have hc : eraN4 r ≤ 24 := by
    have := ha2.1
    simp only [eraN4]
    omega
  have hc2 : eraR3 r ≤ 1460 ∧ eraR2 r = 1461 * eraN4 r + eraR3 r := by
    have := ha2.1
    simp only [eraR3, eraN4]
    omega
  have he : eraN1 r ≤ 3 ∧ 365 * eraN1 r ≤ eraR3 r ∧
      (eraN1 r < 3 → eraR3 r < 365 * eraN1 r + 365) := by
    have := hc2.1
    simp only [eraN1]
    omega
  have hyday : eraYday r = eraR3 r - 365 * eraN1 r := rfl
  rw [show eraYoe r = 100 * eraN100 r + 4 * eraN4 r + eraN1 r from rfl]
  have hg1 := yoeDays_decomp (eraN100 r) (eraN4 r) (eraN1 r) ha hc he.1
  rcases Nat.lt_or_ge (eraN1 r) 3 with he3 | he3
  · have hg2 : yoeDays (100 * eraN100 r + 4 * eraN4 r + eraN1 r + 1) =
        36524 * eraN100 r + 1461 * eraN4 r + 365 * (eraN1 r + 1) := by
      rw [show 100 * eraN100 r + 4 * eraN4 r + eraN1 r + 1 =
          100 * eraN100 r + 4 * eraN4 r + (eraN1 r + 1) from by omega]
      exact yoeDays_decomp _ _ _ ha hc (by omega)
    omega
  · rcases Nat.lt_or_ge (eraN4 r) 24 with hc24 | hc24
    · have hg2 : yoeDays (100 * eraN100 r + 4 * eraN4 r + eraN1 r + 1) =
          36524 * eraN100 r + 1461 * (eraN4 r + 1) := by
        rw [show 100 * eraN100 r + 4 * eraN4 r + eraN1 r + 1 =
            100 * eraN100 r + 4 * (eraN4 r + 1) + 0 from by omega]
        have := yoeDays_decomp (eraN100 r) (eraN4 r + 1) 0 ha (by omega) (by omega)
        omega
      omega
    · rcases Nat.lt_or_ge (eraN100 r) 3 with ha3 | ha3
      · have hg2 : yoeDays (100 * eraN100 r + 4 * eraN4 r + eraN1 r + 1) =
            36524 * (eraN100 r + 1) := by
          rw [show 100 * eraN100 r + 4 * eraN4 r + eraN1 r + 1 =
              100 * (eraN100 r + 1) + 4 * 0 + 0 from by omega]
          have := yoeDays_decomp (eraN100 r + 1) 0 0 (by omega) (by omega) (by omega)
          omega
        omega
      · have hg2 : yoeDays (100 * eraN100 r + 4 * eraN4 r + eraN1 r + 1) = 146097 := by
          rw [show 100 * eraN100 r + 4 * eraN4 r + eraN1 r + 1 = 400 from by omega]
          decide
        omega

/-- Correctness of the Go year extraction: the extracted year brackets the
day number and the second component is the 0-based day of year. -/
theorem absYearYday_correct (N : Nat) :
    jan1 (absYearYday N).1 ≤ N ∧ N < jan1 ((absYearYday N).1 + 1) ∧
      (absYearYday N).2 = N - jan1 (absYearYday N).1 ∧ 1 ≤ (absYearYday N).1 := by
  obtain ⟨h1, h2, h3⟩ := withinEra (N % 146097) (Nat.mod_lt _ (by norm_num))
  have e1 := jan1_era (N / 146097) (eraYoe (N % 146097))
  have e2 : jan1 (400 * (N / 146097) + eraYoe (N % 146097) + 1 + 1) =
      146097 * (N / 146097) + yoeDays (eraYoe (N % 146097) + 1) := by
    rw [show 400 * (N / 146097) + eraYoe (N % 146097) + 1 + 1 =
        400 * (N / 146097) + (eraYoe (N % 146097) + 1) + 1 from by omega]
    exact jan1_era (N / 146097) (eraYoe (N % 146097) + 1)
  simp only [absYearYday]
  omega

/-- The Boolean leap test, in propositional form. -/
theorem isLeap_iff (y : Nat) :
    isLeap y = true ↔ ((y % 4 = 0 ∧ y % 100 ≠ 0) ∨ y % 400 = 0) := by
  simp [isLeap, Bool.or_eq_true, Bool.and_eq_true, beq_iff_eq, bne_iff_ne]

/-- Incrementing the numerator across a multiple bumps the quotient. -/
theorem div_pred_succ (y m : Nat) (hy : 1 ≤ y) :
    y / m = (y - 1) / m + (if m ∣ y then 1 else 0) := by
  conv_lhs => rw [show y = (y - 1) + 1 from by omega]
  rw [Nat.succ_div]
  rw [show y - 1 + 1 = y from by omega]

/-- A year starting from year 1 is 365 or 366 days long. -/
theorem jan1_succ (y : Nat) (hy : 1 ≤ y) :
    jan1 (y + 1) = jan1 y + (if isLeap y then 366 else 365) := by
  have h4 := div_pred_succ y 4 hy
  have h100 := div_pred_succ y 100 hy
  have h400 := div_pred_succ y 400 hy
  rcases Bool.eq_false_or_eq_true (isLeap y) with hb | hb
  · have hl : (y % 4 = 0 ∧ y % 100 ≠ 0) ∨ y % 400 = 0 := (isLeap_iff y).mp hb
    rw [if_pos hb]
    simp only [jan1]
    rw [show y + 1 - 1 = y from by omega]
    split_ifs at h4 h100 h400 <;> omega
  · have hl : ¬ ((y % 4 = 0 ∧ y % 100 ≠ 0) ∨ y % 400 = 0) := by
      rw [← isLeap_iff]
      simp [hb]
    rw [if_neg (by simp [hb])]
    simp only [jan1]
    rw [show y + 1 - 1 = y from by omega]
    split_ifs at h4 h100 h400 <;> omega

/-- `jan1` is monotone. -/
theorem jan1_mono {a b : Nat} (h : a ≤ b) : jan1 a ≤ jan1 b := by
  simp only [jan1]
  have h4 : (a - 1) / 4 ≤ (b - 1) / 4 := Nat.div_le_div_right (by omega)
  have h400 : (a - 1) / 400 ≤ (b - 1) / 400 := Nat.div_le_div_right (by omega)
  have h100 : (b - 1) / 100 ≤ (a - 1) / 100 + ((b - 1) - (a - 1)) := by omega
  omega

/-- Adjacent years' starts are at least 365 days apart. -/
theorem jan1_succ_le (y : Nat) (hy : 1 ≤ y) : jan1 y + 365 ≤ jan1 (y + 1) := by
  rw [jan1_succ y hy]
  split <;> omega

/-- The year bracketing characterizes `yearOfDays`. -/
theorem yearOfDays_unique {y N : Nat} (h1 : jan1 y ≤ N) (h2 : N < jan1 (y + 1)) :
    yearOfDays N = y := by
  obtain ⟨ha, hb, -, h1'⟩ := absYearYday_correct N
  rcases Nat.lt_trichotomy y (yearOfDays N) with h | h | h
  · have l1 : jan1 (y + 1) ≤ jan1 (yearOfDays N) := jan1_mono (by omega)
    have := ha
    simp only [yearOfDays] at *
    omega
  · exact h.symm
  · have l1 : jan1 (yearOfDays N + 1) ≤ jan1 y := jan1_mono (by omega)
    have l2 : jan1 (yearOfDays N) + 365 ≤ jan1 (yearOfDays N + 1) :=
      jan1_succ_le _ (by simpa [yearOfDays] using h1')
    simp only [yearOfDays] at *
    omega

/-! ### Month and day extraction (Go `absDate`, month part) -/

/-- Month and 1-based day-of-month from a 0-based day of a non-leap year:
Go `absDate`'s `day/31` month estimate with its overshoot correction. -/
def monthDayNonLeap (day : Nat) : Nat × Nat :=
  let m0 := day / 31
  let e := cumDays (m0 + 2)
  if e ≤ day then (m0 + 2, day - e + 1)
  else (m0 + 1, day - cumDays (m0 + 1) + 1)

/-- Month and day of a 0-based day of year: Go `absDate`'s leap-day
special-casing around February 29 followed by the non-leap lookup. -/
def absMonthDay (leap : Bool) (yday : Nat) : Nat × Nat :=
  if leap then
    if 59 < yday then monthDayNonLeap (yday - 1)
    else if yday = 59 then (2, 29)
    else monthDayNonLeap yday
  else monthDayNonLeap yday

/-- Civil date of a day number (Go `absDate` with `full = true`). -/
def civilFromDays (N : Nat) : Nat × Nat × Nat :=
  ((absYearYday N).1, absMonthDay (isLeap (absYearYday N).1) (absYearYday N).2)

/-- A well-formed civil date (year at least 1). -/
def ValidDate (y m d : Nat) : Prop :=
  1 ≤ y ∧ 1 ≤ m ∧ m ≤ 12 ∧ 1 ≤ d ∧ d ≤ daysInMonth y m

instance (y m d : Nat) : Decidable (ValidDate y m d) := by
  unfold ValidDate
  infer_instance

theorem cumDays_mono : ∀ i < 14, ∀ j < 14, i ≤ j → cumDays i ≤ cumDays j := by decide

theorem monthDayNonLeap_correct (day : Nat) (h : day < 365) :
    1 ≤ (monthDayNonLeap day).1 ∧ (monthDayNonLeap day).1 ≤ 12 ∧
    1 ≤ (monthDayNonLeap day).2 ∧
    cumDays (monthDayNonLeap day).1 + (monthDayNonLeap day).2 ≤
      cumDays ((monthDayNonLeap day).1 + 1) ∧
    cumDays (monthDayNonLeap day).1 + ((monthDayNonLeap day).2 - 1) = day := by
  have h31 : day / 31 = 0 ∨ day / 31 = 1 ∨ day / 31 = 2 ∨ day / 31 = 3 ∨ day / 31 = 4 ∨
      day / 31 = 5 ∨ day / 31 = 6 ∨ day / 31 = 7 ∨ day / 31 = 8 ∨ day / 31 = 9 ∨
      day / 31 = 10 ∨ day / 31 = 11 := by omega
  rcases h31 with h'|h'|h'|h'|h'|h'|h'|h'|h'|h'|h'|h' <;>
    simp only [monthDayNonLeap, h'] <;>
    norm_num [cumDays] <;>
    split <;>
    simp_all [cumDays] <;>
    omega

theorem daysInM_false (m : Nat) : daysInM false m = cumDays (m + 1) - cumDays m := by
  by_cases h : m = 2 <;> simp [daysInM, h] <;> norm_num [cumDays]

/-- Correctness of the month/day extraction: the result is a valid month
and day whose cumulative position reproduces the day of year. -/
theorem absMonthDay_correct (b : Bool) (yday : Nat) (h : yday < if b then 366 else 365) :
    1 ≤ (absMonthDay b yday).1 ∧ (absMonthDay b yday).1 ≤ 12 ∧
    1 ≤ (absMonthDay b yday).2 ∧ (absMonthDay b yday).2 ≤ daysInM b (absMonthDay b yday).1 ∧
    daysBeforeM b (absMonthDay b yday).1 + ((absMonthDay b yday).2 - 1) = yday := by
  cases b with
  | false =>
    simp only [absMonthDay, Bool.false_eq_true, if_false] at *
    obtain ⟨c1, c2, c3, c4, c5⟩ := monthDayNonLeap_correct yday (by omega)
    refine ⟨c1, c2, c3, ?_, ?_⟩
    · rw [daysInM_false]
      omega
    · simp only [daysBeforeM]
      rw [if_neg (by simp)]
      omega
  | true =>
    simp only [if_true] at h
    simp only [absMonthDay, if_true]
    rcases Nat.lt_trichotomy 59 yday with hy | hy | hy
    · rw [if_pos hy]
      obtain ⟨c1, c2, c3, c4, c5⟩ := monthDayNonLeap_correct (yday - 1) (by omega)
      have hm3 : 3 ≤ (monthDayNonLeap (yday - 1)).1 := by
        by_contra hcon
        have : cumDays ((monthDayNonLeap (yday - 1)).1 + 1) ≤ cumDays 3 :=
          cumDays_mono _ (by omega) 3 (by omega) (by omega)
        have h59 : cumDays 3 = 59 := rfl
        omega
      refine ⟨c1, c2, c3, ?_, ?_⟩
      · simp only [daysInM]
        rw [if_neg (by omega)]
        omega
      · simp only [daysBeforeM]
        rw [if_pos ⟨by omega, by trivial⟩]
        omega
    · rw [if_neg (by omega), if_pos hy.symm]
      subst hy
      refine ⟨by norm_num, by norm_num, by norm_num, ?_, ?_⟩ <;> decide
    · rw [if_neg (by omega), if_neg (by omega)]
      obtain ⟨c1, c2, c3, c4, c5⟩ := monthDayNonLeap_correct yday (by omega)
      have hm2 : (monthDayNonLeap yday).1 ≤ 2 := by
        by_contra hcon
        have : cumDays 3 ≤ cumDays (monthDayNonLeap yday).1 :=
          cumDays_mono 3 (by omega) _ (by omega) (by omega)
        have h59 : cumDays 3 = 59 := rfl
        omega
      refine ⟨c1, c2, c3, ?_, ?_⟩
      · simp only [daysInM]
        by_cases h2 : (monthDayNonLeap yday).1 = 2
        · rw [if_pos h2]
          rw [h2] at c4
          have e1 : cumDays 2 = 31 := rfl
          have e2 : cumDays (2 + 1) = 59 := rfl
          norm_num
          omega
        · rw [if_neg h2]
          omega
      · simp only [daysBeforeM]
        rw [if_neg fun hc => absurd hc.1 (by omega)]
        omega

theorem daysBeforeM_13 (b : Bool) : daysBeforeM b 13 = if b then 366 else 365 := by
  cases b <;> decide

theorem daysBeforeM_step : ∀ (b : Bool), ∀ m < 13, 1 ≤ m →
    daysBeforeM b m + daysInM b m = daysBeforeM b (m + 1) := by decide

theorem daysBeforeM_mono : ∀ (b : Bool), ∀ i < 14, ∀ j < 14, i ≤ j →
    daysBeforeM b i ≤ daysBeforeM b j := by decide

/-- A valid date's day number is bracketed by its year's boundaries. -/
theorem daysFromCivil_bracket {y m d : Nat} (h : ValidDate y m d) :
    jan1 y ≤ daysFromCivil y m d ∧ daysFromCivil y m d < jan1 (y + 1) := by
  obtain ⟨hy, hm1, hm2, hd1, hd2⟩ := h
  have hstep := daysBeforeM_step (isLeap y) m (by omega) hm1
  have hmono := daysBeforeM_mono (isLeap y) (m + 1) (by omega) 13 (by omega) (by omega)
  have h13 := daysBeforeM_13 (isLeap y)
  have hsucc := jan1_succ y hy
  simp only [daysFromCivil, daysBeforeMonth, daysInMonth] at *
  split at h13 <;> split at hsucc <;> simp_all <;> omega

/-- The civil date of any day number is valid and maps back to it. -/
theorem civilFromDays_correct (N : Nat) :
    ValidDate (civilFromDays N).1 (civilFromDays N).2.1 (civilFromDays N).2.2 ∧
    daysFromCivil (civilFromDays N).1 (civilFromDays N).2.1 (civilFromDays N).2.2 = N := by
  obtain ⟨h1, h2, h3, h4⟩ := absYearYday_correct N
  have hsucc := jan1_succ (absYearYday N).1 h4
  have hyd : (absYearYday N).2 < if isLeap (absYearYday N).1 then 366 else 365 := by
    split at hsucc <;> simp_all <;> omega
  obtain ⟨c1, c2, c3, c4, c5⟩ := absMonthDay_correct (isLeap (absYearYday N).1) _ hyd
  refine ⟨⟨h4, c1, c2, c3, ?_⟩, ?_⟩
  · simpa only [civilFromDays, daysInMonth] using c4
  · simp only [civilFromDays, daysFromCivil, daysBeforeMonth]
    omega

/-- A day number determines its valid civil date uniquely. -/
theorem civilFromDays_complete {y m d : Nat} (h : ValidDate y m d) :
    civilFromDays (daysFromCivil y m d) = (y, m, d) := by
  obtain ⟨hv, hrt⟩ := civilFromDays_correct (daysFromCivil y m d)
  obtain ⟨hy, hm1, hm2, hd1, hd2⟩ := h
  obtain ⟨hy', hm1', hm2', hd1', hd2'⟩ := hv
  obtain ⟨hb1, hb2⟩ := daysFromCivil_bracket ⟨hy, hm1, hm2, hd1, hd2⟩
  -- the year components agree
  have hyeq : (civilFromDays (daysFromCivil y m d)).1 = y := by
    have : yearOfDays (daysFromCivil y m d) = y := yearOfDays_unique hb1 hb2
    simpa only [civilFromDays, yearOfDays] using this
  -- cumulative positions agree, so months and days agree
  set m' := (civilFromDays (daysFromCivil y m d)).2.1 with hm'
  set d' := (civilFromDays (daysFromCivil y m d)).2.2 with hd'
  have hpos : daysBeforeMonth y m' + (d' - 1) = daysBeforeMonth y m + (d - 1) := by
    have := hrt
    rw [hyeq] at this
    simp only [daysFromCivil] at this
    omega
  have hmeq : m' = m := by
    by_contra hne
    rw [hyeq] at hd2'
    have hstep := daysBeforeM_step (isLeap y) m (by omega) hm1
    have hstep' := daysBeforeM_step (isLeap y) m' (by omega) hm1'
    simp only [daysBeforeMonth, daysInMonth] at *
    rcases Nat.lt_or_ge m m' with hlt | hge
    · have := daysBeforeM_mono (isLeap y) (m + 1) (by omega) m' (by omega) (by omega)
      omega
    · have := daysBeforeM_mono (isLeap y) (m' + 1) (by omega) m (by omega) (by omega)
      omega
  have hdeq : d' = d := by
    rw [hmeq] at hpos
    omega
  have : civilFromDays (daysFromCivil y m d) =
      ((civilFromDays (daysFromCivil y m d)).1, m', d') := rfl
  rw [this, hyeq, hmeq, hdeq]

/-! ### ISO 8601 week numbers

`main.go` line 221 calls `start.ISOWeek()`.  `isoWeekGo` translates Go's
algorithm (shift to the Thursday of the week, weeks starting Monday, then
`yday/7 + 1`); `isoWeekSpec` is written from the spec's words (§4.3): the
week containing the first Thursday of the year is week 1, weeks start
Monday.  `isoWeek_eq` proves them equal on every day number. -/

/-- Go weekday of a day number, Sunday = 0 (Go `absWeekday`; January 1 of
year 1 was a Monday). -/
def goWeekday (N : Nat) : Nat := (N + 1) % 7

/-- The Thursday of the Monday-started week containing day `N`
(Go `ISOWeek`'s `d := Thursday - wd; if d == 4 { d = -3 }` shift). -/
def thursdayOf (N : Nat) : Nat :=
  if goWeekday N = 0 then N - 3 else N + 4 - goWeekday N

/-- ISO year and week of a day number (Go `Time.ISOWeek`). -/
def isoWeekGo (N : Nat) : Nat × Nat :=
  ((absYearYday (thursdayOf N)).1, (absYearYday (thursdayOf N)).2 / 7 + 1)

/-- Modelled from the spec: day number of the first Thursday of year `y`. -/
def firstThursday (y : Nat) : Nat := jan1 y + (11 - goWeekday (jan1 y)) % 7

/-- Modelled from the spec: Monday starting the ISO week 1 of year `y`. -/
def week1Monday (y : Nat) : Nat := firstThursday y - 3

/-- Modelled from the spec: ISO-8601 year and week — weeks start Monday and
week 1 of a year is the week containing the year's first Thursday, so day
`N` belongs to the ISO year whose week-1 Monday most recently precedes it,
and its week number counts 7-day steps from that Monday. -/
def isoWeekSpec (N : Nat) : Nat × Nat :=
  let y := yearOfDays N
  if N < week1Monday y then (y - 1, (N - week1Monday (y - 1)) / 7 + 1)
  else if N < week1Monday (y + 1) then (y, (N - week1Monday y) / 7 + 1)
  else (y + 1, (N - week1Monday (y + 1)) / 7 + 1)

theorem thursdayOf_facts (N : Nat) :
    thursdayOf N % 7 = 3 ∧ thursdayOf N ≤ N + 3 ∧ N ≤ thursdayOf N + 3 := by
  simp only [thursdayOf, goWeekday]
  split <;> omega

theorem firstThursday_facts (y : Nat) :
    jan1 y ≤ firstThursday y ∧ firstThursday y ≤ jan1 y + 6 ∧
    firstThursday y % 7 = 3 ∧ 3 ≤ firstThursday y := by
  simp only [firstThursday, goWeekday]
  omega

theorem week1Monday_def (y : Nat) : week1Monday y = firstThursday y - 3 := rfl

/-- Two valid years bracketing the same day number coincide. -/
theorem jan1_bracket_unique {a b N : Nat} (ha0 : 1 ≤ a) (hb0 : 1 ≤ b)
    (ha1 : jan1 a ≤ N) (ha2 : N < jan1 (a + 1))
    (hb1 : jan1 b ≤ N) (hb2 : N < jan1 (b + 1)) : a = b := by
  rcases Nat.lt_trichotomy a b with h | h | h
  · have l1 : jan1 (a + 1) ≤ jan1 b := jan1_mono (by omega)
    omega
  · exact h
  · have l1 : jan1 (b + 1) ≤ jan1 a := jan1_mono (by omega)
    omega

/-- Go's `ISOWeek` agrees with the spec's first-Thursday formulation on
every day number. -/
theorem isoWeek_eq (N : Nat) : isoWeekGo N = isoWeekSpec N := by
  obtain ⟨ht7, ht1, ht2⟩ := thursdayOf_facts N
  obtain ⟨hbN1, hbN2, -, hbN4⟩ := absYearYday_correct N
  obtain ⟨hbT1, hbT2, hbT3, hbT4⟩ := absYearYday_correct (thursdayOf N)
  obtain ⟨f1, f2, f3, f4⟩ := firstThursday_facts (absYearYday N).1
  have w1 := week1Monday_def (absYearYday N).1
  simp only [isoWeekGo, isoWeekSpec, yearOfDays]
  rw [hbT3]
  rcases Nat.lt_or_ge N (week1Monday (absYearYday N).1) with hc1 | hc1
  · -- N still belongs to the last ISO week of the previous year
    rw [if_pos hc1]
    have hy2 : 2 ≤ (absYearYday N).1 := by
      by_contra hcon
      have h1 : (absYearYday N).1 = 1 := by omega
      have hj1 : jan1 1 = 0 := rfl
      rw [h1] at f1 f2 f3 f4 w1 hc1
      omega
    obtain ⟨g1, g2, g3, g4⟩ := firstThursday_facts ((absYearYday N).1 - 1)
    have w2 := week1Monday_def ((absYearYday N).1 - 1)
    have hs : jan1 ((absYearYday N).1 - 1) + 365 ≤ jan1 (absYearYday N).1 := by
      have h := jan1_succ_le ((absYearYday N).1 - 1) (by omega)
      rw [show (absYearYday N).1 - 1 + 1 = (absYearYday N).1 from by omega] at h
      exact h
    have hTlt : thursdayOf N < jan1 (absYearYday N).1 := by omega
    have hyT : (absYearYday (thursdayOf N)).1 = (absYearYday N).1 - 1 := by
      refine jan1_bracket_unique hbT4 (by omega) hbT1 hbT2 (by omega) ?_
      rw [show (absYearYday N).1 - 1 + 1 = (absYearYday N).1 from by omega]
      exact hTlt
    rw [hyT]
    simp only [Prod.mk.injEq, true_and]
    omega
  · rw [if_neg (by omega)]
    rcases Nat.lt_or_ge N (week1Monday ((absYearYday N).1 + 1)) with hc2 | hc2
    · -- N belongs to a week of its own calendar year
      rw [if_pos hc2]
      obtain ⟨g1, g2, g3, g4⟩ := firstThursday_facts ((absYearYday N).1 + 1)
      have w2 := week1Monday_def ((absYearYday N).1 + 1)
      have hs : jan1 (absYearYday N).1 + 365 ≤ jan1 ((absYearYday N).1 + 1) :=
        jan1_succ_le _ hbN4
      have hyT : (absYearYday (thursdayOf N)).1 = (absYearYday N).1 :=
        jan1_bracket_unique hbT4 hbN4 hbT1 hbT2 (by omega) (by omega)
      rw [hyT]
      simp only [Prod.mk.injEq, true_and]
      omega
    · -- the last days of December already belong to next year's week 1
      rw [if_neg (by omega)]
      obtain ⟨g1, g2, g3, g4⟩ := firstThursday_facts ((absYearYday N).1 + 1)
      have w2 := week1Monday_def ((absYearYday N).1 + 1)
      obtain ⟨k1, k2, k3, k4⟩ := firstThursday_facts ((absYearYday N).1 + 1 + 1)
      have hs : jan1 ((absYearYday N).1 + 1) + 365 ≤ jan1 ((absYearYday N).1 + 1 + 1) :=
        jan1_succ_le _ (by omega)
      have hyT : (absYearYday (thursdayOf N)).1 = (absYearYday N).1 + 1 :=
        jan1_bracket_unique hbT4 (by omega) hbT1 hbT2 (by omega) (by omega)
      rw [hyT]
      simp only [Prod.mk.injEq, true_and]
      omega

/-! ### Times

A `GoTime` holds the wall-clock fields in the time's own location plus
that location's offset from UTC in minutes; Go's accessors (`Year`,
`Month`, `Day`, `Hour`, `Minute`, `Second`) return exactly these wall
clock fields, and `Format` prints them. -/

structure GoTime where
  year : Nat
  month : Nat
  day : Nat
  hour : Nat
  minute : Nat
  second : Nat
  offset : Int
deriving Repr, DecidableEq

/-- A time whose fields are in range. -/
def ValidTime (t : GoTime) : Prop :=
  ValidDate t.year t.month t.day ∧ t.hour < 24 ∧ t.minute < 60 ∧ t.second < 60

instance (t : GoTime) : Decidable (ValidTime t) := by
  unfold ValidTime
  infer_instance

/-- Day number of a time's civil date. -/
def GoTime.days (t : GoTime) : Nat := daysFromCivil t.year t.month t.day

/-- The absolute instant of a time, in seconds UTC. -/
def instantSec (t : GoTime) : Int :=
  (t.days : Int) * 86400 + t.hour * 3600 + t.minute * 60 + t.second - t.offset * 60

/-- `time.Date(y, m, d, hh, mi, ss, 0, loc)` for a location with fixed
offset `localOff`: Go normalizes an out-of-range month into the year and
an out-of-range day into the following months (the program passes clock
fields 0, 0, 0, which need no normalization). -/
def goDate (localOff : Int) (y m d hh mi ss : Nat) : GoTime :=
  let y' := y + (m - 1) / 12
  let m' := (m - 1) % 12 + 1
  let N := jan1 y' + daysBeforeMonth y' m' + (d - 1)
  ⟨(civilFromDays N).1, (civilFromDays N).2.1, (civilFromDays N).2.2, hh, mi, ss, localOff⟩

/-! ### Events, calendars, service results -/

structure EventStart where
  dateTime : String
  date : String
deriving Repr, DecidableEq

structure Event where
  start : EventStart
  summary : String
deriving Repr, DecidableEq

structure Calendar where
  id : String
  description : String
deriving Repr, DecidableEq

/-- Outcome of a Go code path that may call `log.Fatalf` or `panic`
(which terminate the process) instead of returning. -/
inductive GoResult (α : Type) where
  | ok : α → GoResult α
  | fatal : String → GoResult α
deriving Repr, DecidableEq

/-- Unicode White_Space (Go `unicode.IsSpace`). -/
def goIsSpace (c : Char) : Bool :=
  let n := c.toNat
  n = 32 || (9 ≤ n && n ≤ 13) || n = 0x85 || n = 0xA0 || n = 0x1680 ||
    (0x2000 ≤ n && n ≤ 0x200A) || n = 0x2028 || n = 0x2029 || n = 0x202F ||
    n = 0x205F || n = 0x3000

/-- Go `strings.TrimSpace`: drop leading and trailing white space. -/
def trimGo (s : String) : String :=
  ⟨((s.data.dropWhile goIsSpace).reverse.dropWhile goIsSpace).reverse⟩

/-! ### Parsing (Go `time.Parse` for the two layouts used) -/

def digitVal (c : Char) : Option Nat :=
  if '0' ≤ c ∧ c ≤ '9' then some (c.toNat - 48) else none

def digit2 (a b : Char) : Option Nat :=
  match digitVal a, digitVal b with
  | some x, some y => some (10 * x + y)
  | _, _ => none

def digit4 (a b c d : Char) : Option Nat :=
  match digit2 a b, digit2 c d with
  | some x, some y => some (100 * x + y)
  | _, _ => none

/-- `time.Parse("2006-01-02", s)` (main.go line 205): a date-only marker
parses to midnight UTC of the written calendar date — Go's `Parse`
returns a time in UTC when the layout has no zone designator. -/
def parseDateOnly (s : String) : Option GoTime :=
  match s.data with
  | [a, b, c, d, '-', e, f, '-', g, i] =>
    match digit4 a b c d, digit2 e f, digit2 g i with
    | some y, some mo, some dd =>
      if 1 ≤ mo ∧ mo ≤ 12 ∧ 1 ≤ dd ∧ dd ≤ daysInMonth y mo then
        some ⟨y, mo, dd, 0, 0, 0, 0⟩
      else none
    | _, _, _ => none
  | _ => none

/-- The numeric zone or `Z` suffix of an RFC 3339 timestamp, in minutes. -/
def parseOffset : List Char → Option Int
  | ['Z'] => some 0
  | ['+', a, b, ':', c, d] =>
    (match digit2 a b, digit2 c d with
     | some hh, some mm =>
       if hh ≤ 23 ∧ mm ≤ 59 then some ((hh : Int) * 60 + mm) else none
     | _, _ => none)
  | ['-', a, b, ':', c, d] =>
    (match digit2 a b, digit2 c d with
     | some hh, some mm =>
       if hh ≤ 23 ∧ mm ≤ 59 then some (-((hh : Int) * 60 + mm)) else none
     | _, _ => none)
  | _ => none

/-- `time.Parse(time.RFC3339, s)` (main.go line 211), restricted to whole
seconds: the wall-clock fields are kept as written, together with the
written zone offset. -/
def parseRFC3339 (s : String) : Option GoTime :=
  match s.data with
  | a :: b :: c :: d :: '-' :: e :: f :: '-' :: g :: i :: 'T' ::
      j :: k :: ':' :: l :: m :: ':' :: n :: o :: rest =>
    match digit4 a b c d, digit2 e f, digit2 g i, digit2 j k, digit2 l m, digit2 n o,
        parseOffset rest with
    | some y, some mo, some dd, some hh, some mi, some ss, some off =>
      if 1 ≤ mo ∧ mo ≤ 12 ∧ 1 ≤ dd ∧ dd ≤ daysInMonth y mo ∧ hh ≤ 23 ∧ mi ≤ 59 ∧ ss ≤ 59 then
        some ⟨y, mo, dd, hh, mi, ss, off⟩
      else none
    | _, _, _, _, _, _, _ => none
  | _ => none

/-! ### Formatting (Go `Time.Format` for the two layouts, and `Printf`) -/

/-- Two-digit zero-padded decimal (layout `02`, and `%02d`). -/
def pad2 (n : Nat) : String := if n < 10 then "0" ++ toString n else toString n

/-- Four-digit zero-padded decimal (layout `2006`, years below 10000). -/
def pad4 (n : Nat) : String := pad2 (n / 100) ++ pad2 (n % 100)

/-- An RFC 3339 timestamp with whole seconds and a numeric zone, written
from its fields: the reference shape of the start markers the service
delivers (main.go line 211 parses exactly this shape). -/
def renderRFC3339 (y mo dd hh mi ss : Nat) (neg : Bool) (oh om : Nat) : String :=
  pad4 y ++ "-" ++ pad2 mo ++ "-" ++ pad2 dd ++ "T" ++ pad2 hh ++ ":" ++ pad2 mi ++
  ":" ++ pad2 ss ++ (if neg then "-" else "+") ++ pad2 oh ++ ":" ++ pad2 om

/-- Layout `Jan`: three-letter month abbreviation. -/
def monthAbbrev (m : Nat) : String :=
  ["Jan", "Feb", "Mar", "Apr", "May", "Jun",
   "Jul", "Aug", "Sep", "Oct", "Nov", "Dec"].getD (m - 1) ""

/-- Layout `Mon`: three-letter weekday abbreviation, indexed Sunday = 0. -/
def weekdayAbbrev (w : Nat) : String :=
  ["Sun", "Mon", "Tue", "Wed", "Thu", "Fri", "Sat"].getD w ""

/-- `t.Format("Jan 02")` (main.go line 219). -/
def fmtJan02 (t : GoTime) : String := monthAbbrev t.month ++ " " ++ pad2 t.day

/-- `t.Format("2006-01-02 Mon 15:04:05")` (main.go line 222). -/
def fmtOrgStamp (t : GoTime) : String :=
  pad4 t.year ++ "-" ++ pad2 t.month ++ "-" ++ pad2 t.day ++ " " ++
  weekdayAbbrev (goWeekday t.days) ++ " " ++
  pad2 t.hour ++ ":" ++ pad2 t.minute ++ ":" ++ pad2 t.second

/-- The `remind` output record (the `Printf` of main.go lines 218-219),
without the trailing newline the `Printf` appends. -/
def formatRemindLine (t : GoTime) (summary : String) : String :=
  "REM " ++ fmtJan02 t ++ " AT " ++ pad2 t.hour ++ ":" ++ pad2 t.minute ++
  " MSG %\"" ++ summary ++ "%\" %b, %2"

/-- The `org` output records for one event (main.go lines 220-227), one
string per `Printf`, without trailing newlines. -/
def formatOrgLines (t : GoTime) (summary calname : String) : List String :=
  ["* " ++ summary ++ " <" ++ fmtOrgStamp t ++ ">",
   "  #+PROPERTY: week=" ++ toString (isoWeekGo t.days).2] ++
  (if calname ≠ "" then ["  #+PROPERTY: calendar=" ++ calname] else [])

/-- The `org` document preamble (main.go line 186). -/
def orgPreamble : String := "# -*- mode: org -*-"

/-! ### The program (main.go `getEvents` and `main`) -/

/-- Today's local midnight, `getEvents`'s `midnight_today` (lines 113-115). -/
def midnightToday (localOff : Int) (now : GoTime) : GoTime :=
  goDate localOff now.year now.month now.day 0 0 0

/-- The window end selected by the duration flag (lines 116-131):
tomorrow's midnight by default, overridden for `1w` and `1m`, and an
error for any value other than the three recognized ones. -/
def windowEnd (dur : String) (localOff : Int) (now : GoTime) : Except String GoTime :=
  if dur = "1w" then .ok (goDate localOff now.year now.month (now.day + 7) 0 0 0)
  else if dur = "1m" then .ok (goDate localOff now.year (now.month + 1) now.day 0 0 0)
  else if dur ≠ "1d" then .error "Invalid duration"
  else .ok (goDate localOff now.year now.month (now.day + 1) 0 0 0)

/-- `getEvents` (main.go lines 111-152): an invalid duration is returned
as an error beside the empty slice; a service error hits `log.Fatalf`
(process termination) before the `return` statement on line 138. -/
def getEvents (dur : String) (localOff : Int) (now : GoTime)
    (svc : String → GoTime → GoTime → Except String (List Event))
    (calid _caldesc : String) : GoResult (List Event × Option String) :=
  match windowEnd dur localOff now with
  | .error msg => .ok ([], some msg)
  | .ok endt =>
    match svc calid (midnightToday localOff now) endt with
    | .error _ => .fatal "Unable to retrieve events"
    | .ok items => .ok (items, none)

/-- Normalization of one event's start marker (main.go lines 199-215): the
date-only branch is taken exactly when the `DateTime` field is empty, and
a parse failure `panic`s. -/
def normalizeStart (st : EventStart) : GoResult GoTime :=
  if st.dateTime = "" then
    match parseDateOnly st.date with
    | some t => .ok t
    | none => .fatal "parse error"
  else
    match parseRFC3339 st.dateTime with
    | some t => .ok t
    | none => .fatal "parse error"

/-- Formatting of one event (main.go lines 198-230).  The process's local
offset is a parameter because the process has a local timezone, but this
code path never consults it: parsing uses the marker's own zone and
formatting prints the parsed wall clock. -/
def processEvent (localOff : Int) (fmtMode calname : String) (e : Event) :
    GoResult (List String) :=
  match normalizeStart e.start with
  | .fatal msg => .fatal msg
  | .ok tm =>
    let summary := trimGo e.summary
    if fmtMode = "remind" then .ok [formatRemindLine tm summary]
    else if fmtMode = "org" then .ok (formatOrgLines tm summary calname)
    else .fatal "unsupported format"

/-- The per-event loop of `main` for one calendar: records written before
a `panic` stay written; the second component reports the panic. -/
def processEvents (localOff : Int) (fmtMode calname : String) :
    List Event → List String × Option String
  | [] => ([], none)
  | e :: rest =>
    match processEvent localOff fmtMode calname e with
    | .fatal msg => ([], some msg)
    | .ok lines =>
      let p := processEvents localOff fmtMode calname rest
      (lines ++ p.1, p.2)

/-- The per-calendar loop of `main` (lines 188-232), returning the stdout
records and the exit code.  Note the order faithful to the source: the
empty-name `continue` on line 191 is checked before the fetch error on
line 194. -/
def runCals (fmtMode dur : String) (emptycal : Bool) (localOff : Int) (now : GoTime)
    (svc : String → GoTime → GoTime → Except String (List Event)) :
    List Calendar → List String × Nat
  | [] => ([], 0)
  | c :: rest =>
    match getEvents dur localOff now svc c.id c.description with
    | .fatal _ => ([], 1)
    | .ok (events, err) =>
      let calname := trimGo c.description
      if calname = "" ∧ emptycal = false then
        runCals fmtMode dur emptycal localOff now svc rest
      else
        match err with
        | some _ => ([], 1)
        | none =>
          let p := processEvents localOff fmtMode calname events
          match p.2 with
          | some _ => (p.1, 2)
          | none =>
            let q := runCals fmtMode dur emptycal localOff now svc rest
            (p.1 ++ q.1, q.2)

/-- The output phase of `main` (lines 185-233) together with `init`'s
required-format check (lines 36-39): standard-output records and exit
code of a run over the given calendar list. -/
def gcal (fmtMode dur : String) (emptycal : Bool) (localOff : Int) (now : GoTime)
    (cals : List Calendar)
    (svc : String → GoTime → GoTime → Except String (List Event)) : List String × Nat :=
  if fmtMode = "" then ([], 1)
  else
    let pre := if fmtMode = "org" then [orgPreamble] else []
    let p := runCals fmtMode dur emptycal localOff now svc cals
    (pre ++ p.1, p.2)

/-! ### Window arithmetic -/

/-- Local midnight of the day with the given day number. -/
def midnightOfDay (off : Int) (N : Nat) : GoTime :=
  ⟨(civilFromDays N).1, (civilFromDays N).2.1, (civilFromDays N).2.2, 0, 0, 0, off⟩

theorem midnightOfDay_days (off : Int) (N : Nat) : (midnightOfDay off N).days = N :=
  (civilFromDays_correct N).2

/-- Year and month of the month after month `m` of year `y`. -/
def nextMonthY (y m : Nat) : Nat := if m = 12 then y + 1 else y

/-- 1-based month index of the month after month `m`. -/
def nextMonthM (m : Nat) : Nat := if m = 12 then 1 else m + 1

/-- `time.Date` at a day-field overflow `d + k` is exactly `k` days past
the midnight of the date `(y, m, d)`. -/
theorem goDate_day_offset (off : Int) (y m d k : Nat)
    (hm1 : 1 ≤ m) (hm2 : m ≤ 12) (hd : 1 ≤ d) :
    goDate off y m (d + k) 0 0 0 = midnightOfDay off (daysFromCivil y m d + k) := by
  simp only [goDate, midnightOfDay]
  rw [show y + (m - 1) / 12 = y from by omega, show (m - 1) % 12 + 1 = m from by omega]
  rw [show jan1 y + daysBeforeMonth y m + (d + k - 1) = daysFromCivil y m d + k from by
    simp only [daysFromCivil]; omega]

/-- `time.Date` at a month-field overflow `m + 1` lands in the next
month, with any day overflow pushed into the day count. -/
theorem goDate_next_month (off : Int) (y m d : Nat) (hm1 : 1 ≤ m) (hm2 : m ≤ 12) :
    goDate off y (m + 1) d 0 0 0 =
      midnightOfDay off (jan1 (nextMonthY y m) + daysBeforeMonth (nextMonthY y m) (nextMonthM m) + (d - 1)) := by
  simp only [goDate, midnightOfDay, nextMonthY, nextMonthM]
  by_cases h12 : m = 12
  · subst h12
    rw [if_pos rfl, if_pos rfl]
  · rw [if_neg h12, if_neg h12]
    rw [show y + (m + 1 - 1) / 12 = y from by omega, show (m + 1 - 1) % 12 + 1 = m + 1 from by omega]

theorem windowEnd_1d (off : Int) (now : GoTime) (h : ValidTime now) :
    windowEnd "1d" off now = .ok (midnightOfDay off (now.days + 1)) := by
  obtain ⟨⟨hy, hm1, hm2, hd1, hd2⟩, -⟩ := h
  have e : windowEnd "1d" off now = .ok (goDate off now.year now.month (now.day + 1) 0 0 0) := rfl
  rw [e, goDate_day_offset off now.year now.month now.day 1 hm1 hm2 hd1]
  rfl

theorem windowEnd_1w (off : Int) (now : GoTime) (h : ValidTime now) :
    windowEnd "1w" off now = .ok (midnightOfDay off (now.days + 7)) := by
  obtain ⟨⟨hy, hm1, hm2, hd1, hd2⟩, -⟩ := h
  have e : windowEnd "1w" off now = .ok (goDate off now.year now.month (now.day + 7) 0 0 0) := rfl
  rw [e, goDate_day_offset off now.year now.month now.day 7 hm1 hm2 hd1]
  rfl

theorem windowEnd_1m (off : Int) (now : GoTime) (h : ValidTime now) :
    windowEnd "1m" off now = .ok (midnightOfDay off
      (jan1 (nextMonthY now.year now.month) +
       daysBeforeMonth (nextMonthY now.year now.month) (nextMonthM now.month) + (now.day - 1))) := by
  obtain ⟨⟨hy, hm1, hm2, hd1, hd2⟩, -⟩ := h
  have e : windowEnd "1m" off now = .ok (goDate off now.year (now.month + 1) now.day 0 0 0) := rfl
  rw [e]
  exact congrArg Except.ok (goDate_next_month off now.year now.month now.day hm1 hm2)

theorem windowEnd_invalid (dur : String) (off : Int) (now : GoTime)
    (h1 : dur ≠ "1d") (h2 : dur ≠ "1w") (h3 : dur ≠ "1m") :
    windowEnd dur off now = .error "Invalid duration" := by
  simp only [windowEnd]
  rw [if_neg h2, if_neg h3, if_pos h1]

theorem windowEnd_error_msg (dur : String) (off : Int) (now : GoTime) (msg : String)
    (h : windowEnd dur off now = .error msg) : msg = "Invalid duration" := by
  simp only [windowEnd] at h
  split_ifs at h <;> simp_all

/-- The month following a valid month is valid, with validity of days
carrying over. -/
theorem nextMonth_valid {y m : Nat} (hy : 1 ≤ y) (hm1 : 1 ≤ m) (hm2 : m ≤ 12) :
    1 ≤ nextMonthY y m ∧ 1 ≤ nextMonthM m ∧ nextMonthM m ≤ 12 := by
  simp only [nextMonthY, nextMonthM]
  split_ifs <;> omega

/-! ### Claim C2 -/

/-- C2, counterexample to the claim as stated: with the current date
2025-01-31 the `1m` window end is local midnight of 2025-03-03 (Go's
`time.Date` normalizes the nonexistent February 31), not midnight of the
same day-of-month (31) in the following month (February). -/
theorem C2_counterexample :
    windowEnd "1m" (-300) ⟨2025, 1, 31, 10, 0, 0, -300⟩ =
      .ok ⟨2025, 3, 3, 0, 0, 0, -300⟩ ∧
    ¬ ((GoTime.mk 2025 3 3 0 0 0 (-300)).month = 2 ∧
       (GoTime.mk 2025 3 3 0 0 0 (-300)).day = 31) :=
  ⟨rfl, by decide⟩

/-- C2 (amended): "1d" ends at the next local midnight; "1w" at local
midnight exactly seven calendar days after the current date; "1m" at
local midnight of the date obtained by incrementing the month and letting
a day overflow spill into the following months — which is the same
day-of-month in the following month exactly when that month has the day;
any other selector makes `getEvents` return an error beside an empty
event list rather than a silently wrong window. -/
theorem C2_amended (off : Int) (now : GoTime) (h : ValidTime now) :
    (windowEnd "1d" off now = .ok (midnightOfDay off (now.days + 1)) ∧
      (midnightOfDay off (now.days + 1)).days = now.days + 1) ∧
    (windowEnd "1w" off now = .ok (midnightOfDay off (now.days + 7)) ∧
      (midnightOfDay off (now.days + 7)).days = now.days + 7) ∧
    (windowEnd "1m" off now = .ok (midnightOfDay off
        (daysFromCivil (nextMonthY now.year now.month) (nextMonthM now.month) now.day)) ∧
      (now.day ≤ daysInMonth (nextMonthY now.year now.month) (nextMonthM now.month) →
        midnightOfDay off
            (daysFromCivil (nextMonthY now.year now.month) (nextMonthM now.month) now.day) =
          ⟨nextMonthY now.year now.month, nextMonthM now.month, now.day, 0, 0, 0, off⟩)) ∧
    (∀ M, (midnightOfDay off M).hour = 0 ∧ (midnightOfDay off M).minute = 0 ∧
      (midnightOfDay off M).second = 0 ∧ (midnightOfDay off M).offset = off) ∧
    (∀ dur, dur ≠ "1d" → dur ≠ "1w" → dur ≠ "1m" →
      windowEnd dur off now = .error "Invalid duration" ∧
      ∀ svc calid cd, getEvents dur off now svc calid cd =
        .ok ([], some "Invalid duration")) := by
  obtain ⟨⟨hy, hm1, hm2, hd1, hd2⟩, hcl⟩ := h
  refine ⟨⟨windowEnd_1d off now ⟨⟨hy, hm1, hm2, hd1, hd2⟩, hcl⟩, midnightOfDay_days off _⟩,
    ⟨windowEnd_1w off now ⟨⟨hy, hm1, hm2, hd1, hd2⟩, hcl⟩, midnightOfDay_days off _⟩,
    ⟨?_, ?_⟩, fun M => ⟨rfl, rfl, rfl, rfl⟩, ?_⟩
  · rw [windowEnd_1m off now ⟨⟨hy, hm1, hm2, hd1, hd2⟩, hcl⟩]
    rfl
  · intro hdim
    obtain ⟨hn1, hn2, hn3⟩ := nextMonth_valid hy hm1 hm2
    have hc := civilFromDays_complete
      (show ValidDate (nextMonthY now.year now.month) (nextMonthM now.month) now.day from
        ⟨hn1, hn2, hn3, hd1, hdim⟩)
    simp only [midnightOfDay, hc]
  · intro dur h1 h2 h3
    refine ⟨windowEnd_invalid dur off now h1 h2 h3, fun svc calid cd => ?_⟩
    simp only [getEvents, windowEnd_invalid dur off now h1 h2 h3]

/-- Witness: C2 applied at 2025-01-31 10:00 in a UTC-5 location. -/
theorem C2_witness :
    windowEnd "1w" (-300) ⟨2025, 1, 31, 10, 0, 0, -300⟩ =
      .ok (midnightOfDay (-300) ((GoTime.mk 2025 1 31 10 0 0 (-300)).days + 7)) :=
  (C2_amended (-300) ⟨2025, 1, 31, 10, 0, 0, -300⟩ (by decide)).2.1.1

/-! ### Claim C4 -/

/-- C4, counterexample to the claim as stated: with an invalid duration
and a single calendar whose trimmed display name is empty, that
calendar's listing attempt returns an error, yet the run skips the
calendar and exits with status 0. -/
theorem C4_counterexample :
    getEvents "2x" 0 ⟨2025, 1, 5, 9, 0, 0, 0⟩ (fun _ _ _ => .ok []) "id1" "  " =
      .ok ([], some "Invalid duration") ∧
    gcal "remind" "2x" false 0 ⟨2025, 1, 5, 9, 0, 0, 0⟩ [⟨"id1", "  "⟩]
      (fun _ _ _ => .ok []) = ([], 0) :=
  ⟨rfl, rfl⟩

/-- C4 (amended): an error returned by a calendar's listing attempt stops
the run with exit status 1 — no later calendar is fetched or printed —
provided the calendar is not skipped for an empty trimmed display name
(the empty-name `continue` precedes the error check, so an error for a
skipped calendar is discarded); a service error aborts the run fatally
regardless of the calendar's name. -/
theorem C4_amended (fmtMode dur : String) (emptycal : Bool) (off : Int) (now : GoTime)
    (svc : String → GoTime → GoTime → Except String (List Event))
    (c : Calendar) (rest : List Calendar) :
    (∀ es msg, getEvents dur off now svc c.id c.description = .ok (es, some msg) →
      (trimGo c.description ≠ "" ∨ emptycal = true) →
      runCals fmtMode dur emptycal off now svc (c :: rest) = ([], 1)) ∧
    (∀ msg, getEvents dur off now svc c.id c.description = .fatal msg →
      runCals fmtMode dur emptycal off now svc (c :: rest) = ([], 1)) := by
  constructor
  · intro es msg hget hname
    simp only [runCals, hget]
    rw [if_neg (by rcases hname with h1 | h1 <;> simp [h1])]
  · intro msg hget
    simp only [runCals, hget]

/-- Witness: C4 (amended) applied to a non-empty-named calendar with an
invalid duration selector. -/
theorem C4_witness :
    runCals "remind" "2x" false 0 ⟨2025, 1, 5, 9, 0, 0, 0⟩
      (fun _ _ _ => .ok []) [⟨"id1", "Work"⟩] = ([], 1) :=
  (C4_amended "remind" "2x" false 0 ⟨2025, 1, 5, 9, 0, 0, 0⟩
      (fun _ _ _ => .ok []) ⟨"id1", "Work"⟩ []).1 [] "Invalid duration" rfl
    (.inl (by decide))

/-! ### Claim C5 -/

/-- An unrecognized (non-`remind`, non-`org`) format makes every event
`panic` before printing anything. -/
theorem processEvent_unrecognized (off : Int) (fm cn : String) (e : Event)
    (h1 : fm ≠ "remind") (h2 : fm ≠ "org") :
    ∃ msg, processEvent off fm cn e = .fatal msg := by
  rcases hns : normalizeStart e.start with tm | msg
  · refine ⟨"unsupported format", ?_⟩
    simp only [processEvent, hns]
    rw [if_neg h1, if_neg h2]
  · exact ⟨msg, by simp only [processEvent, hns]⟩

theorem processEvents_unrecognized (off : Int) (fm cn : String) (evs : List Event)
    (h1 : fm ≠ "remind") (h2 : fm ≠ "org") :
    (processEvents off fm cn evs).1 = [] := by
  cases evs with
  | nil => rfl
  | cons e rest =>
    obtain ⟨msg, hmsg⟩ := processEvent_unrecognized off fm cn e h1 h2
    simp only [processEvents, hmsg]

theorem runCals_unrecognized (fm dur : String) (ec : Bool) (off : Int) (now : GoTime)
    (svc : String → GoTime → GoTime → Except String (List Event))
    (h1 : fm ≠ "remind") (h2 : fm ≠ "org") :
    ∀ cals, (runCals fm dur ec off now svc cals).1 = [] := by
  intro cals
  induction cals with
  | nil => rfl
  | cons c rest ih =>
    simp only [runCals]
    cases hget : getEvents dur off now svc c.id c.description with
    | fatal msg => rfl
    | ok p =>
      obtain ⟨es, err⟩ := p
      simp only []
      split
      · exact ih
      · cases err with
        | some msg => rfl
        | none =>
          have hout := processEvents_unrecognized off fm (trimGo c.description) es h1 h2
          cases hp : (processEvents off fm (trimGo c.description) es).2 with
          | some msg => simpa [hp] using hout
          | none => simp [hp, hout, ih]

/-- C5, counterexample to the claim as stated: a run with the
unrecognized format mode `xml` over a calendar with no events terminates
normally with exit status 0 — it does not fail fatally. -/
theorem C5_counterexample :
    gcal "xml" "1d" false 0 ⟨2025, 1, 5, 9, 0, 0, 0⟩ [⟨"id1", "Work"⟩]
      (fun _ _ _ => .ok []) = ([], 0) :=
  rfl

/-- C5 (amended): an absent (empty) format mode prints usage and exits
with status 1 before doing anything; an unrecognized non-empty mode never
writes a line to standard output, and a run that reaches at least one
event `panic`s (exit status 2) at the first event — but a run that
processes no events completes with exit status 0. -/
theorem C5_amended :
    (∀ dur ec off now cals svc, gcal "" dur ec off now cals svc = ([], 1)) ∧
    (∀ fm, fm ≠ "" → fm ≠ "remind" → fm ≠ "org" →
      ∀ dur ec off now cals svc, (gcal fm dur ec off now cals svc).1 = []) ∧
    (∀ fm, fm ≠ "" → fm ≠ "remind" → fm ≠ "org" →
      ∀ dur ec off now svc (c : Calendar) rest (e : Event) es,
        getEvents dur off now svc c.id c.description = .ok (e :: es, none) →
        (trimGo c.description ≠ "" ∨ ec = true) →
        gcal fm dur ec off now (c :: rest) svc = ([], 2)) := by
  refine ⟨fun dur ec off now cals svc => rfl, ?_, ?_⟩
  · intro fm h0 h1 h2 dur ec off now cals svc
    simp only [gcal]
    rw [if_neg h0, if_neg h2]
    simpa using runCals_unrecognized fm dur ec off now svc h1 h2 cals
  · intro fm h0 h1 h2 dur ec off now svc c rest e es hget hname
    obtain ⟨msg, hmsg⟩ := processEvent_unrecognized off fm (trimGo c.description) e h1 h2
    simp only [gcal]
    rw [if_neg h0, if_neg h2]
    simp only [runCals, hget]
    rw [if_neg (by rcases hname with hn | hn <;> simp [hn])]
    simp only [processEvents, hmsg]
    rfl

/-- Witness: C5 (amended) at the mode `xml` — no output, usage exit for
the empty mode, and panic exit 2 at the first event. -/
theorem C5_witness :
    gcal "xml" "1d" false 0 ⟨2025, 1, 5, 9, 0, 0, 0⟩ [⟨"id1", "Work"⟩]
      (fun _ _ _ => .ok [⟨⟨"2025-01-05T12:30:00-05:00", ""⟩, "Lunch"⟩]) = ([], 2) :=
  C5_amended.2.2 "xml" (by decide) (by decide) (by decide) "1d" false 0
    ⟨2025, 1, 5, 9, 0, 0, 0⟩ (fun _ _ _ => .ok [⟨⟨"2025-01-05T12:30:00-05:00", ""⟩, "Lunch"⟩])
    ⟨"id1", "Work"⟩ [] ⟨⟨"2025-01-05T12:30:00-05:00", ""⟩, "Lunch"⟩ [] rfl
    (.inl (by decide))

/-! ### Claim C9 -/

/-- C9 (confirmed): a service error in the events-listing call terminates
the process inside `getEvents` (Go's `log.Fatalf`), so the `return`
statement after it is never reached; the only error the caller can ever
observe from `getEvents` is the invalid-duration validation error, beside
an empty list. -/
theorem C9_service_error_fatal (dur : String) (off : Int) (now : GoTime)
    (svc : String → GoTime → GoTime → Except String (List Event)) (calid cd : String) :
    (∀ endt msg, windowEnd dur off now = .ok endt →
      svc calid (midnightToday off now) endt = .error msg →
      getEvents dur off now svc calid cd = .fatal "Unable to retrieve events") ∧
    (∀ es msg, getEvents dur off now svc calid cd = .ok (es, some msg) →
      msg = "Invalid duration" ∧ es = []) := by
  constructor
  · intro endt msg hw hs
    simp only [getEvents, hw, hs]
  · intro es msg hget
    cases hw : windowEnd dur off now with
    | error e =>
      have hval : getEvents dur off now svc calid cd = .ok ([], some e) := by
        simp only [getEvents, hw]
      rw [hval] at hget
      simp only [GoResult.ok.injEq, Prod.mk.injEq, Option.some.injEq] at hget
      obtain ⟨hes, hm⟩ := hget
      refine ⟨?_, hes.symm⟩
      rw [← hm]
      exact windowEnd_error_msg dur off now e hw
    | ok endt =>
      cases hs : svc calid (midnightToday off now) endt with
      | error m =>
        have hval : getEvents dur off now svc calid cd = .fatal "Unable to retrieve events" := by
          simp only [getEvents, hw, hs]
        rw [hval] at hget
        simp at hget
      | ok items =>
        have hval : getEvents dur off now svc calid cd = .ok (items, none) := by
          simp only [getEvents, hw, hs]
        rw [hval] at hget
        simp at hget

/-- Witness: C9 applied to a service that fails. -/
theorem C9_witness :
    getEvents "1d" 0 ⟨2025, 1, 5, 9, 0, 0, 0⟩ (fun _ _ _ => .error "boom") "id1" "Work" =
      .fatal "Unable to retrieve events" :=
  (C9_service_error_fatal "1d" 0 ⟨2025, 1, 5, 9, 0, 0, 0⟩
      (fun _ _ _ => .error "boom") "id1" "Work").1
    (midnightOfDay 0 ((GoTime.mk 2025 1 5 9 0 0 0).days + 1)) "boom"
    (windowEnd_1d 0 ⟨2025, 1, 5, 9, 0, 0, 0⟩ (by decide)) rfl

/-! ### Claim C10 -/

/-- The service query's start argument, at a valid current time, is
today's date at 00:00:00 in the process's local zone. -/
theorem midnightToday_eq (off : Int) (now : GoTime) (h : ValidTime now) :
    midnightToday off now = ⟨now.year, now.month, now.day, 0, 0, 0, off⟩ := by
  obtain ⟨⟨hy, hm1, hm2, hd1, hd2⟩, -⟩ := h
  simp only [midnightToday, goDate]
  rw [show now.year + (now.month - 1) / 12 = now.year from by omega,
      show (now.month - 1) % 12 + 1 = now.month from by omega]
  rw [show jan1 now.year + daysBeforeMonth now.year now.month + (now.day - 1) =
      daysFromCivil now.year now.month now.day from rfl]
  rw [civilFromDays_complete ⟨hy, hm1, hm2, hd1, hd2⟩]

/-- C10 (confirmed): the events-listing call always receives local
midnight of the current day as the window start — `getEvents` only ever
queries the service at that start, the start carries today's date with a
00:00:00 clock, its instant is not after the current instant, and it is
not after any same-day instant, so events earlier on the same day are
inside the queried window. -/
theorem C10_window_start (dur : String) (off : Int) (now : GoTime) (calid cd : String) :
    (∀ svc1 svc2 : String → GoTime → GoTime → Except String (List Event),
      (∀ cid endt, svc1 cid (midnightToday off now) endt = svc2 cid (midnightToday off now) endt) →
      getEvents dur off now svc1 calid cd = getEvents dur off now svc2 calid cd) ∧
    (ValidTime now →
      midnightToday off now = ⟨now.year, now.month, now.day, 0, 0, 0, off⟩) ∧
    (ValidTime now → now.offset = off →
      instantSec (midnightToday off now) ≤ instantSec now) ∧
    (∀ t : GoTime, ValidTime now → now.offset = off → t.offset = off → t.days = now.days →
      instantSec (midnightToday off now) ≤ instantSec t) := by
  refine ⟨?_, midnightToday_eq off now, ?_, ?_⟩
  · intro svc1 svc2 hsvc
    simp only [getEvents, ← hsvc]
  · intro h hoff
    rw [midnightToday_eq off now h]
    simp only [instantSec, GoTime.days]
    omega
  · intro t h hoff htoff htd
    rw [midnightToday_eq off now h]
    simp only [instantSec, GoTime.days] at *
    omega

/-- Witness: C10 applied at 2025-01-05 09:00 UTC. -/
theorem C10_witness :
    midnightToday 0 ⟨2025, 1, 5, 9, 0, 0, 0⟩ = ⟨2025, 1, 5, 0, 0, 0, 0⟩ :=
  (C10_window_start "1d" 0 ⟨2025, 1, 5, 9, 0, 0, 0⟩ "id1" "Work").2.1 (by decide)

/-! ### Claim C1 -/

/-- Wall-clock hour of a time's instant, re-expressed at offset `off`. -/
def hourAt (t : GoTime) (off : Int) : Int :=
  ((instantSec t + off * 60).emod 86400) / 3600

/-- A successful date-only parse always produces a midnight-UTC time on a
valid date. -/
theorem parseDateOnly_fields (s : String) (t : GoTime) (h : parseDateOnly s = some t) :
    t.hour = 0 ∧ t.minute = 0 ∧ t.second = 0 ∧ t.offset = 0 ∧
    1 ≤ t.month ∧ t.month ≤ 12 ∧ 1 ≤ t.day ∧ t.day ≤ daysInMonth t.year t.month := by
  simp only [parseDateOnly] at h
  split at h
  · split at h
    · split at h
      · rename_i hvalid
        injection h with h
        subst h
        exact ⟨rfl, rfl, rfl, rfl, hvalid.1, hvalid.2.1, hvalid.2.2.1, hvalid.2.2.2⟩
      · exact absurd h (by simp)
    · exact absurd h (by simp)
  · exact absurd h (by simp)

/-- C1, counterexample to the claim as stated: the date-only marker
`2025-01-05` normalizes to 2025-01-05 00:00:00 UTC (offset 0), and in a
process whose local timezone is UTC−5 (offset −300 minutes) that instant
has local wall-clock hour 19, not 0 — it is not local midnight. -/
theorem C1_counterexample :
    normalizeStart ⟨"", "2025-01-05"⟩ = .ok ⟨2025, 1, 5, 0, 0, 0, 0⟩ ∧
    hourAt ⟨2025, 1, 5, 0, 0, 0, 0⟩ (-300) = 19 ∧
    hourAt ⟨2025, 1, 5, 0, 0, 0, 0⟩ (-300) ≠ 0 :=
  ⟨rfl, by decide, by decide⟩

/-- C1 (amended): a date-only start marker (pattern YYYY-MM-DD) is parsed
as that calendar date at midnight UTC — the stored wall-clock hour and
minute are 0 and the offset is 0, which is local midnight only when the
local zone is UTC — and the ISO week derived from it equals the standard
ISO-8601 week of that date (weeks start Monday, week 1 holds the year's
first Thursday): 2025-01-01 is in week 1, and 2024-12-30 is in week 1 of
2025. -/
theorem C1_amended :
    (∀ st t, st.dateTime = "" → normalizeStart st = .ok t →
      parseDateOnly st.date = some t ∧ t.hour = 0 ∧ t.minute = 0 ∧ t.offset = 0) ∧
    (∀ N, isoWeekGo N = isoWeekSpec N) ∧
    (isoWeekGo (daysFromCivil 2025 1 1)).2 = 1 ∧
    isoWeekGo (daysFromCivil 2024 12 30) = (2025, 1) := by
  refine ⟨?_, isoWeek_eq, by decide, by decide⟩
  intro st t hdt hns
  cases hp : parseDateOnly st.date with
  | none =>
    have hval : normalizeStart st = .fatal "parse error" := by
      simp only [normalizeStart, hdt, if_true, hp]
    rw [hval] at hns
    exact absurd hns (by simp)
  | some u =>
    have hval : normalizeStart st = .ok u := by
      simp only [normalizeStart, hdt, if_true, hp]
    rw [hval] at hns
    simp only [GoResult.ok.injEq] at hns
    subst hns
    obtain ⟨h1, h2, -, h4, -⟩ := parseDateOnly_fields st.date u hp
    exact ⟨rfl, h1, h2, h4⟩

/-- Witness: C1 (amended) applied to the marker `2025-01-05`. -/
theorem C1_witness :
    parseDateOnly "2025-01-05" = some ⟨2025, 1, 5, 0, 0, 0, 0⟩ ∧
    (GoTime.mk 2025 1 5 0 0 0 0).hour = 0 ∧
    (GoTime.mk 2025 1 5 0 0 0 0).minute = 0 ∧
    (GoTime.mk 2025 1 5 0 0 0 0).offset = 0 :=
  C1_amended.1 ⟨"", "2025-01-05"⟩ ⟨2025, 1, 5, 0, 0, 0, 0⟩ rfl rfl

/-! ### Claim C3 -/

theorem noNl_append {a b : String} (ha : '\n' ∉ a.data) (hb : '\n' ∉ b.data) :
    '\n' ∉ (a ++ b).data := by
  rw [String.data_append]
  simp only [List.mem_append, not_or]
  exact ⟨ha, hb⟩

theorem pad2_noNl : ∀ n < 100, '\n' ∉ (pad2 n).data := by decide

theorem monthAbbrev_noNl (m : Nat) : '\n' ∉ (monthAbbrev m).data := by
  rcases Nat.lt_or_ge m 14 with h | h
  · interval_cases m <;> decide
  · simp only [monthAbbrev]
    rw [List.getD_eq_default]
    · decide
    · simp only [List.length_cons, List.length_nil]
      omega

theorem daysInM_le_31 : ∀ (b : Bool), ∀ m < 13, daysInM b m ≤ 31 := by decide

theorem processEvent_remind (off : Int) (cn : String) (e : Event) (t : GoTime)
    (h : normalizeStart e.start = .ok t) :
    processEvent off "remind" cn e = .ok [formatRemindLine t (trimGo e.summary)] := by
  simp only [processEvent, h, if_true]

/-- C3 (confirmed): in the `remind` dialect each event yields exactly one
output record, the fixed literal template with the month abbreviation,
zero-padded day, zero-padded 24-hour clock, and the summary wrapped in
`%"..."%`; for summary `Lunch` at 2025-01-05T12:30 the record is
byte-for-byte `REM Jan 05 AT 12:30 MSG %"Lunch%" %b, %2`; and the record
contains no newline of its own when the trimmed summary does not. -/
theorem C3_remind_format :
    (∀ (off : Int) (cn : String) (e : Event) (t : GoTime),
      normalizeStart e.start = .ok t →
      processEvent off "remind" cn e =
        .ok ["REM " ++ monthAbbrev t.month ++ " " ++ pad2 t.day ++ " AT " ++
             pad2 t.hour ++ ":" ++ pad2 t.minute ++ " MSG %\"" ++ trimGo e.summary ++
             "%\" %b, %2"]) ∧
    formatRemindLine ⟨2025, 1, 5, 12, 30, 0, -300⟩ "Lunch" =
      "REM Jan 05 AT 12:30 MSG %\"Lunch%\" %b, %2" ∧
    gcal "remind" "1d" false (-300) ⟨2025, 1, 5, 9, 0, 0, -300⟩ [⟨"id1", "Work"⟩]
      (fun _ _ _ => .ok [⟨⟨"2025-01-05T12:30:00-05:00", ""⟩, "Lunch"⟩]) =
      (["REM Jan 05 AT 12:30 MSG %\"Lunch%\" %b, %2"], 0) ∧
    (∀ (t : GoTime) (s : String), ValidTime t → '\n' ∉ s.data →
      '\n' ∉ (formatRemindLine t s).data) := by
  refine ⟨?_, rfl, rfl, ?_⟩
  · intro off cn e t h
    rw [processEvent_remind off cn e t h]
    have hline : formatRemindLine t (trimGo e.summary) =
        "REM " ++ monthAbbrev t.month ++ " " ++ pad2 t.day ++ " AT " ++ pad2 t.hour ++ ":" ++
        pad2 t.minute ++ " MSG %\"" ++ trimGo e.summary ++ "%\" %b, %2" := by
      apply String.ext
      simp only [formatRemindLine, fmtJan02, String.data_append, List.append_assoc]
    rw [hline]
  · intro t s hv hs
    obtain ⟨⟨-, hm1, hm2, hd1, hd2⟩, hh, hmi, -⟩ := hv
    have hdle : t.day < 100 := by
      have h31 := daysInM_le_31 (isLeap t.year) t.month (by omega)
      simp only [daysInMonth] at hd2
      omega
    have h1 := pad2_noNl t.day hdle
    have h2 := pad2_noNl t.hour (by omega)
    have h3 := pad2_noNl t.minute (by omega)
    have hJan : '\n' ∉ (fmtJan02 t).data :=
      noNl_append (noNl_append (monthAbbrev_noNl t.month) (by decide)) h1
    exact noNl_append (noNl_append (noNl_append (noNl_append (noNl_append (noNl_append
      (noNl_append (noNl_append (by decide) hJan) (by decide)) h2) (by decide)) h3)
      (by decide)) hs) (by decide)

/-! ### Claim C6 -/

theorem ne_preamble_of_head {s : String} {c : Char} {cs : List Char}
    (h : s.data = c :: cs) (hc : c ≠ '#') : s ≠ orgPreamble := by
  intro he
  rw [he] at h
  have e2 : orgPreamble.data = '#' :: (" -*- mode: org -*-" : String).data := rfl
  rw [e2] at h
  injection h with h1 h2
  exact hc h1.symm

theorem data_starts (a b : String) (c : Char) (cs : List Char) (h : a.data = c :: cs) :
    ∃ ds, (a ++ b).data = c :: ds := by
  rw [String.data_append, h]
  exact ⟨cs ++ b.data, rfl⟩

theorem formatRemindLine_ne_preamble (t : GoTime) (s : String) :
    formatRemindLine t s ≠ orgPreamble := by
  obtain ⟨d1, h1⟩ := data_starts "REM " (fmtJan02 t) 'R' _ rfl
  obtain ⟨d2, h2⟩ := data_starts _ " AT " 'R' _ h1
  obtain ⟨d3, h3⟩ := data_starts _ (pad2 t.hour) 'R' _ h2
  obtain ⟨d4, h4⟩ := data_starts _ ":" 'R' _ h3
  obtain ⟨d5, h5⟩ := data_starts _ (pad2 t.minute) 'R' _ h4
  obtain ⟨d6, h6⟩ := data_starts _ " MSG %\"" 'R' _ h5
  obtain ⟨d7, h7⟩ := data_starts _ s 'R' _ h6
  obtain ⟨d8, h8⟩ := data_starts _ "%\" %b, %2" 'R' _ h7
  exact ne_preamble_of_head h8 (by decide)

theorem formatOrgLines_ne_preamble (t : GoTime) (s cn : String) :
    ∀ l ∈ formatOrgLines t s cn, l ≠ orgPreamble := by
  have hhead : ("* " ++ s ++ " <" ++ fmtOrgStamp t ++ ">") ≠ orgPreamble := by
    obtain ⟨d1, h1⟩ := data_starts "* " s '*' _ rfl
    obtain ⟨d2, h2⟩ := data_starts _ " <" '*' _ h1
    obtain ⟨d3, h3⟩ := data_starts _ (fmtOrgStamp t) '*' _ h2
    obtain ⟨d4, h4⟩ := data_starts _ ">" '*' _ h3
    exact ne_preamble_of_head h4 (by decide)
  have hweek : ("  #+PROPERTY: week=" ++ toString (isoWeekGo t.days).2) ≠ orgPreamble := by
    obtain ⟨d1, h1⟩ :=
      data_starts "  #+PROPERTY: week=" (toString (isoWeekGo t.days).2) ' ' _ rfl
    exact ne_preamble_of_head h1 (by decide)
  have hcal : ("  #+PROPERTY: calendar=" ++ cn) ≠ orgPreamble := by
    obtain ⟨d1, h1⟩ := data_starts "  #+PROPERTY: calendar=" cn ' ' _ rfl
    exact ne_preamble_of_head h1 (by decide)
  intro l hl
  simp only [formatOrgLines, List.mem_append, List.mem_cons, List.not_mem_nil, or_false] at hl
  rcases hl with (hl | hl) | hl
  · exact hl ▸ hhead
  · exact hl ▸ hweek
  · split at hl
    · simp only [List.mem_cons, List.not_mem_nil, or_false] at hl
      exact hl ▸ hcal
    · exact absurd hl (List.not_mem_nil l)

theorem processEvent_ne_preamble (off : Int) (fm cn : String) (e : Event)
    (lines : List String) (h : processEvent off fm cn e = .ok lines) :
    ∀ l ∈ lines, l ≠ orgPreamble := by
  rcases hns : normalizeStart e.start with t | msg
  · simp only [processEvent, hns] at h
    split_ifs at h
    · injection h with h
      subst h
      intro l hl
      simp only [List.mem_cons, List.not_mem_nil, or_false] at hl
      exact hl ▸ formatRemindLine_ne_preamble t (trimGo e.summary)
    · injection h with h
      subst h
      exact formatOrgLines_ne_preamble t (trimGo e.summary) cn
  · simp only [processEvent, hns] at h
    exact absurd h (by simp)

theorem processEvents_ne_preamble (off : Int) (fm cn : String) (evs : List Event) :
    ∀ l ∈ (processEvents off fm cn evs).1, l ≠ orgPreamble := by
  induction evs with
  | nil =>
    intro l hl
    simp [processEvents] at hl
  | cons e rest ih =>
    cases hpe : processEvent off fm cn e with
    | fatal msg =>
      have hval : processEvents off fm cn (e :: rest) = ([], some msg) := by
        simp only [processEvents, hpe]
      rw [hval]
      intro l hl
      simp at hl
    | ok lines =>
      have hval : (processEvents off fm cn (e :: rest)).1 =
          lines ++ (processEvents off fm cn rest).1 := by
        simp only [processEvents, hpe]
      rw [hval]
      intro l hl
      rcases List.mem_append.mp hl with hm | hm
      · exact processEvent_ne_preamble off fm cn e lines hpe l hm
      · exact ih l hm

theorem runCals_ne_preamble (fm dur : String) (ec : Bool) (off : Int) (now : GoTime)
    (svc : String → GoTime → GoTime → Except String (List Event)) :
    ∀ cals, ∀ l ∈ (runCals fm dur ec off now svc cals).1, l ≠ orgPreamble := by
  intro cals
  induction cals with
  | nil =>
    intro l hl
    simp [runCals] at hl
  | cons c rest ih =>
    cases hget : getEvents dur off now svc c.id c.description with
    | fatal msg =>
      have hval : runCals fm dur ec off now svc (c :: rest) = ([], 1) := by
        simp only [runCals, hget]
      rw [hval]
      intro l hl
      simp at hl
    | ok p =>
      obtain ⟨es, err⟩ := p
      by_cases hskip : trimGo c.description = "" ∧ ec = false
      · have hval : runCals fm dur ec off now svc (c :: rest) =
            runCals fm dur ec off now svc rest := by
          simp only [runCals, hget]
          rw [if_pos hskip]
        rw [hval]
        exact ih
      · cases err with
        | some msg =>
          have hval : runCals fm dur ec off now svc (c :: rest) = ([], 1) := by
            simp only [runCals, hget]
            rw [if_neg hskip]
          rw [hval]
          intro l hl
          simp at hl
        | none =>
          cases hp2 : (processEvents off fm (trimGo c.description) es).2 with
          | some msg =>
            have hval : (runCals fm dur ec off now svc (c :: rest)).1 =
                (processEvents off fm (trimGo c.description) es).1 := by
              simp only [runCals, hget]
              rw [if_neg hskip, hp2]
            rw [hval]
            exact processEvents_ne_preamble off fm (trimGo c.description) es
          | none =>
            have hval : (runCals fm dur ec off now svc (c :: rest)).1 =
                (processEvents off fm (trimGo c.description) es).1 ++
                (runCals fm dur ec off now svc rest).1 := by
              simp only [runCals, hget]
              rw [if_neg hskip, hp2]
            rw [hval]
            intro l hl
            rcases List.mem_append.mp hl with hm | hm
            · exact processEvents_ne_preamble off fm (trimGo c.description) es l hm
            · exact ih l hm

/-- C6 (confirmed): in the `org` dialect each event yields a heading line
with the trimmed summary and an active `YYYY-MM-DD Weekday HH:MM:SS`
timestamp, then a week-number property line, then a calendar-name
property line exactly when the calendar's trimmed display name is
non-empty; and the preamble `# -*- mode: org -*-` is printed exactly
once, before any event record, and never in any other mode. -/
theorem C6_org_format :
    (∀ (off : Int) (cn : String) (e : Event) (t : GoTime),
      normalizeStart e.start = .ok t →
      processEvent off "org" cn e = .ok
        (["* " ++ trimGo e.summary ++ " <" ++ fmtOrgStamp t ++ ">",
          "  #+PROPERTY: week=" ++ toString (isoWeekGo t.days).2] ++
         (if cn ≠ "" then ["  #+PROPERTY: calendar=" ++ cn] else []))) ∧
    gcal "org" "1d" false (-300) ⟨2025, 1, 5, 9, 0, 0, -300⟩ [⟨"id1", "Work"⟩]
      (fun _ _ _ => .ok [⟨⟨"2025-01-05T12:30:00-05:00", ""⟩, " Lunch "⟩]) =
      ([orgPreamble, "* Lunch <2025-01-05 Sun 12:30:00>", "  #+PROPERTY: week=1",
        "  #+PROPERTY: calendar=Work"], 0) ∧
    (∀ dur ec off now cals svc,
      (gcal "org" dur ec off now cals svc).1 =
        orgPreamble :: (runCals "org" dur ec off now svc cals).1 ∧
      orgPreamble ∉ (runCals "org" dur ec off now svc cals).1) ∧
    (∀ fm, fm ≠ "org" → ∀ dur ec off now cals svc,
      orgPreamble ∉ (gcal fm dur ec off now cals svc).1) := by
  refine ⟨?_, rfl, ?_, ?_⟩
  · intro off cn e t h
    simp only [processEvent, h, if_true]
    rw [if_neg (by decide)]
    rfl
  · intro dur ec off now cals svc
    refine ⟨rfl, fun hmem => ?_⟩
    exact runCals_ne_preamble "org" dur ec off now svc cals orgPreamble hmem rfl
  · intro fm hfm dur ec off now cals svc hmem
    by_cases h0 : fm = ""
    · subst h0
      simp [gcal] at hmem
    · have hval : (gcal fm dur ec off now cals svc).1 =
          (runCals fm dur ec off now svc cals).1 := by
        simp only [gcal]
        rw [if_neg h0, if_neg hfm]
        simp
      rw [hval] at hmem
      exact runCals_ne_preamble fm dur ec off now svc cals orgPreamble hmem rfl

/-- Witness: C6 applied to the Lunch/Work event. -/
theorem C6_witness :
    processEvent (-300) "org" "Work" ⟨⟨"2025-01-05T12:30:00-05:00", ""⟩, " Lunch "⟩ =
      .ok (["* " ++ trimGo " Lunch " ++ " <" ++ fmtOrgStamp ⟨2025, 1, 5, 12, 30, 0, -300⟩ ++ ">",
            "  #+PROPERTY: week=" ++
              toString (isoWeekGo (GoTime.mk 2025 1 5 12 30 0 (-300)).days).2] ++
           (if ("Work" : String) ≠ "" then ["  #+PROPERTY: calendar=" ++ "Work"] else [])) :=
  C6_org_format.1 (-300) "Work" ⟨⟨"2025-01-05T12:30:00-05:00", ""⟩, " Lunch "⟩
    ⟨2025, 1, 5, 12, 30, 0, -300⟩ rfl

/-! ### Claim C8 -/

/-- The service always answers for the given calendar. -/
def SvcTotal (svc : String → GoTime → GoTime → Except String (List Event))
    (c : Calendar) : Prop :=
  ∀ a b, ∃ es, svc c.id a b = Except.ok es

/-- C8 (confirmed): with `emptycal` off, a run behaves exactly as if the
calendars with empty trimmed display names were absent — none of their
events reach the output and the other calendars' output is unchanged
(provided the service answers for the skipped calendars, whose fetch
still happens before the skip); with `emptycal` on, an empty-named
calendar's event records are included in the output. -/
theorem C8_emptycal :
    (∀ fm dur off now svc (cals : List Calendar),
      (∀ c ∈ cals, trimGo c.description = "" → SvcTotal svc c) →
      runCals fm dur false off now svc cals =
        runCals fm dur false off now svc
          (cals.filter fun c => trimGo c.description != "")) ∧
    (∀ fm dur off now svc (c : Calendar) rest es out,
      getEvents dur off now svc c.id c.description = .ok (es, none) →
      processEvents off fm (trimGo c.description) es = (out, none) →
      runCals fm dur true off now svc (c :: rest) =
        (out ++ (runCals fm dur true off now svc rest).1,
         (runCals fm dur true off now svc rest).2)) := by
  constructor
  · intro fm dur off now svc cals hsvc
    induction cals with
    | nil => rfl
    | cons c rest ih =>
      have ihr := ih (fun c' hc' => hsvc c' (List.mem_cons_of_mem _ hc'))
      by_cases hb : trimGo c.description = ""
      · -- skipped on the left, dropped by the filter on the right
        have hfilter : (c :: rest).filter (fun c => trimGo c.description != "") =
            rest.filter (fun c => trimGo c.description != "") := by
          simp [List.filter_cons, hb]
        rw [hfilter, ← ihr]
        cases hw : windowEnd dur off now with
        | error e =>
          have hget : getEvents dur off now svc c.id c.description = .ok ([], some e) := by
            simp only [getEvents, hw]
          simp only [runCals, hget]
          rw [if_pos ⟨hb, trivial⟩]
        | ok endt =>
          obtain ⟨es, hes⟩ := hsvc c (List.mem_cons_self c rest) hb (midnightToday off now) endt
          have hget : getEvents dur off now svc c.id c.description = .ok (es, none) := by
            simp only [getEvents, hw, hes]
          simp only [runCals, hget]
          rw [if_pos ⟨hb, trivial⟩]
      · have hfilter : (c :: rest).filter (fun c => trimGo c.description != "") =
            c :: rest.filter (fun c => trimGo c.description != "") := by
          simp [List.filter_cons, hb]
        rw [hfilter]
        cases hget : getEvents dur off now svc c.id c.description with
        | fatal msg => simp only [runCals, hget]
        | ok p =>
          obtain ⟨es, err⟩ := p
          simp only [runCals, hget]
          rw [if_neg (by simp [hb]), if_neg (by simp [hb])]
          cases err with
          | some msg => rfl
          | none => rw [ihr]
  · intro fm dur off now svc c rest es out hget hproc
    simp only [runCals, hget]
    rw [if_neg (by simp), hproc]

/-- Witness: C8 applied to an empty-named calendar with one event and
`emptycal` set: the event's record is included. -/
theorem C8_witness :
    runCals "remind" "1d" true 0 ⟨2025, 1, 5, 9, 0, 0, 0⟩
      (fun _ _ _ => .ok [⟨⟨"2025-01-05T12:30:00-05:00", ""⟩, "Lunch"⟩]) [⟨"id1", "  "⟩] =
      (["REM Jan 05 AT 12:30 MSG %\"Lunch%\" %b, %2"] ++
        (runCals "remind" "1d" true 0 ⟨2025, 1, 5, 9, 0, 0, 0⟩
          (fun _ _ _ => .ok [⟨⟨"2025-01-05T12:30:00-05:00", ""⟩, "Lunch"⟩]) []).1,
       (runCals "remind" "1d" true 0 ⟨2025, 1, 5, 9, 0, 0, 0⟩
          (fun _ _ _ => .ok [⟨⟨"2025-01-05T12:30:00-05:00", ""⟩, "Lunch"⟩]) []).2) :=
  C8_emptycal.2 "remind" "1d" 0 ⟨2025, 1, 5, 9, 0, 0, 0⟩
    (fun _ _ _ => .ok [⟨⟨"2025-01-05T12:30:00-05:00", ""⟩, "Lunch"⟩]) ⟨"id1", "  "⟩ []
    [⟨⟨"2025-01-05T12:30:00-05:00", ""⟩, "Lunch"⟩]
    ["REM Jan 05 AT 12:30 MSG %\"Lunch%\" %b, %2"] rfl rfl

/-- Witness: C3 applied to the Lunch event. -/
theorem C3_witness :
    processEvent (-300) "remind" "Work" ⟨⟨"2025-01-05T12:30:00-05:00", ""⟩, "Lunch"⟩ =
      .ok ["REM " ++ monthAbbrev 1 ++ " " ++ pad2 5 ++ " AT " ++ pad2 12 ++ ":" ++
           pad2 30 ++ " MSG %\"" ++ trimGo "Lunch" ++ "%\" %b, %2"] :=
  C3_remind_format.1 (-300) "Work" ⟨⟨"2025-01-05T12:30:00-05:00", ""⟩, "Lunch"⟩
    ⟨2025, 1, 5, 12, 30, 0, -300⟩ rfl

/-! ### Claim C7 -/

theorem pad2_data : ∀ n < 100,
    (pad2 n).data = [Char.ofNat (48 + n / 10), Char.ofNat (48 + n % 10)] := by
  decide

theorem digit2_digits : ∀ n < 100,
    digit2 (Char.ofNat (48 + n / 10)) (Char.ofNat (48 + n % 10)) = some n := by
  decide

theorem digit4_digits (y : Nat) (hy : y < 10000) :
    digit4 (Char.ofNat (48 + y / 100 / 10)) (Char.ofNat (48 + y / 100 % 10))
      (Char.ofNat (48 + y % 100 / 10)) (Char.ofNat (48 + y % 100 % 10)) = some y := by
  simp only [digit4, digit2_digits _ (by omega : y / 100 < 100),
    digit2_digits _ (by omega : y % 100 < 100)]
  exact congrArg some (by omega)

theorem renderRFC3339_data (y mo dd hh mi ss : Nat) (neg : Bool) (oh om : Nat)
    (hy : y < 10000) (hmo : mo < 100) (hdd : dd < 100) (hhh : hh < 100)
    (hmi : mi < 100) (hss : ss < 100) (hoh : oh < 100) (hom : om < 100) :
    (renderRFC3339 y mo dd hh mi ss neg oh om).data =
      Char.ofNat (48 + y / 100 / 10) :: Char.ofNat (48 + y / 100 % 10) ::
      Char.ofNat (48 + y % 100 / 10) :: Char.ofNat (48 + y % 100 % 10) :: '-' ::
      Char.ofNat (48 + mo / 10) :: Char.ofNat (48 + mo % 10) :: '-' ::
      Char.ofNat (48 + dd / 10) :: Char.ofNat (48 + dd % 10) :: 'T' ::
      Char.ofNat (48 + hh / 10) :: Char.ofNat (48 + hh % 10) :: ':' ::
      Char.ofNat (48 + mi / 10) :: Char.ofNat (48 + mi % 10) :: ':' ::
      Char.ofNat (48 + ss / 10) :: Char.ofNat (48 + ss % 10) ::
      (if neg then '-' else '+') ::
      Char.ofNat (48 + oh / 10) :: Char.ofNat (48 + oh % 10) :: ':' ::
      Char.ofNat (48 + om / 10) :: Char.ofNat (48 + om % 10) :: [] := by
  have hdash : ("-" : String).data = ['-'] := rfl
  have hplus : ("+" : String).data = ['+'] := rfl
  have hT : ("T" : String).data = ['T'] := rfl
  have hcolon : (":" : String).data = [':'] := rfl
  cases neg <;>
    simp only [renderRFC3339, pad4, String.data_append, hdash, hplus, hT, hcolon,
      pad2_data _ (by omega : y / 100 < 100), pad2_data _ (by omega : y % 100 < 100),
      pad2_data _ hmo, pad2_data _ hdd, pad2_data _ hhh, pad2_data _ hmi,
      pad2_data _ hss, pad2_data _ hoh, pad2_data _ hom,
      List.cons_append, List.nil_append, List.append_assoc, Bool.false_eq_true,
      ite_false, ite_true]

theorem parseRFC3339_render (y mo dd hh mi ss : Nat) (neg : Bool) (oh om : Nat)
    (hy : y < 10000) (hmo1 : 1 ≤ mo) (hmo2 : mo ≤ 12) (hdd1 : 1 ≤ dd)
    (hdd2 : dd ≤ daysInMonth y mo) (hhh : hh ≤ 23) (hmi : mi ≤ 59) (hss : ss ≤ 59)
    (hoh : oh ≤ 23) (hom : om ≤ 59) :
    parseRFC3339 (renderRFC3339 y mo dd hh mi ss neg oh om) =
      some ⟨y, mo, dd, hh, mi, ss,
        if neg then -((oh : Int) * 60 + om) else (oh : Int) * 60 + om⟩ := by
  have hdd31 : dd < 100 := by
    have h31 := daysInM_le_31 (isLeap y) mo (by omega)
    unfold daysInMonth at hdd2
    omega
  have hdata := renderRFC3339_data y mo dd hh mi ss neg oh om hy (by omega) hdd31
    (by omega) (by omega) (by omega) (by omega) (by omega)
  have hoffd : parseOffset
      ((if neg then '-' else '+') ::
       Char.ofNat (48 + oh / 10) :: Char.ofNat (48 + oh % 10) :: ':' ::
       Char.ofNat (48 + om / 10) :: Char.ofNat (48 + om % 10) :: []) =
      some (if neg then -((oh : Int) * 60 + om) else (oh : Int) * 60 + om) := by
    cases neg <;>
      simp only [parseOffset, digit2_digits _ (by omega : oh < 100),
        digit2_digits _ (by omega : om < 100), Bool.false_eq_true, ite_false, ite_true] <;>
      rw [if_pos ⟨hoh, hom⟩]
  simp only [parseRFC3339, hdata, digit4_digits y hy,
    digit2_digits _ (by omega : mo < 100), digit2_digits _ hdd31,
    digit2_digits _ (by omega : hh < 100), digit2_digits _ (by omega : mi < 100),
    digit2_digits _ (by omega : ss < 100), hoffd]
  rw [if_pos ⟨hmo1, hmo2, hdd1, hdd2, hhh, hmi, hss⟩]

/-- C7 (confirmed): an event whose start marker is a full offset-qualified
RFC 3339 timestamp normalizes to exactly the wall-clock fields written in
the marker — in particular the hour and minute are preserved verbatim
together with the written zone offset — and the per-event processing does
not depend on the process's local offset at all, so the printed HH:MM is
independent of the process's local timezone. -/
theorem C7_rfc3339_preserves :
    (∀ y mo dd hh mi ss (neg : Bool) oh om (st : EventStart),
      y < 10000 → 1 ≤ mo → mo ≤ 12 → 1 ≤ dd → dd ≤ daysInMonth y mo →
      hh ≤ 23 → mi ≤ 59 → ss ≤ 59 → oh ≤ 23 → om ≤ 59 →
      st.dateTime = renderRFC3339 y mo dd hh mi ss neg oh om →
      st.dateTime ≠ "" ∧
      normalizeStart st = .ok ⟨y, mo, dd, hh, mi, ss,
        if neg then -((oh : Int) * 60 + om) else (oh : Int) * 60 + om⟩) ∧
    (∀ off1 off2 fm cn e, processEvent off1 fm cn e = processEvent off2 fm cn e) := by
  constructor
  · intro y mo dd hh mi ss neg oh om st hy h1 h2 h3 h4 h5 h6 h7 h8 h9 hst
    have hparse := parseRFC3339_render y mo dd hh mi ss neg oh om hy h1 h2 h3 h4 h5 h6 h7 h8 h9
    have hne : renderRFC3339 y mo dd hh mi ss neg oh om ≠ "" := fun hc => by
      have hnone : parseRFC3339 "" = none := rfl
      rw [hc, hnone] at hparse
      exact Option.noConfusion hparse
    refine ⟨by rw [hst]; exact hne, ?_⟩
    simp only [normalizeStart]
    rw [if_neg (by rw [hst]; exact hne), hst, hparse]
  · intro off1 off2 fm cn e
    rfl

/-- Witness: C7 applied to the timestamp 2025-01-05T10:00:00-05:00 — the
wall clock 10:00:00 and the -05:00 offset survive normalization. -/
theorem C7_witness :
    (⟨"2025-01-05T10:00:00-05:00", ""⟩ : EventStart).dateTime ≠ "" ∧
    normalizeStart ⟨"2025-01-05T10:00:00-05:00", ""⟩ =
      .ok ⟨2025, 1, 5, 10, 0, 0,
        if (true : Bool) then -((5 : Int) * 60 + 0) else (5 : Int) * 60 + 0⟩ :=
  C7_rfc3339_preserves.1 2025 1 5 10 0 0 true 5 0 ⟨"2025-01-05T10:00:00-05:00", ""⟩
    (by decide) (by decide) (by decide) (by decide) (by decide) (by decide) (by decide)
    (by decide) (by decide) (by decide) rfl

end Gcal
